import Mathlib

/-!
Verification of Chester's resilient model-selection and inference core.

The development shallowly embeds the two relevant modules:

* `modelManager.js` — catalog-descriptor filtering (`isFreeModel`,
  `isTextOnly`), deduplicating filter and four-level comparator of
  `rankModels`, the disk-cache validator `isCacheValid`, the read path
  `getFreeModels`, the refresh orchestration `refreshModels`, and the
  single-flight refresh lock `_refreshInFlight`.
* `llm.js` — `createClient`, the per-model gateway call `callModel`, and the
  waterfall dispatcher `chat`.

Modelling conventions: JavaScript numbers appearing in the code are embedded
as `ℤ` (timestamps, context lengths) or `ℚ` (prices parsed by `parseFloat`);
a field that may be absent or of the wrong runtime type is an `Option`.
Fallible code returns `Except String`; asynchronous effects (network, disk)
are passed in as explicit oracle functions, and each embedded effectful
operation additionally reports which external calls it performed so that
"no network call is attempted" is a provable statement.
-/

namespace Chester

/-- One per-unit price of a model, as seen after `parseFloat`: `none` models a
missing or non-numeric field (`parseFloat(undefined)` is `NaN`, which compares
unequal to `0`). -/
structure Pricing where
  prompt : Option ℚ
  completion : Option ℚ
deriving DecidableEq

/-- A raw catalog model descriptor (`modelManager.js` works on the raw JSON
objects of the listing endpoint, so every field may be absent).
`output_modalities` flattens `architecture?.output_modalities`: `none` covers
both a missing `architecture` object and a missing modality array. -/
structure Model where
  id : Option String
  created : Option ℤ
  context_length : Option ℤ
  pricing : Option Pricing
  output_modalities : Option (List String)
deriving DecidableEq

/-- The identifier a descriptor contributes wherever the code reads `m.id`
in a string position (comparator, `rpIds`); `getD ""` is only ever exercised
on descriptors that passed the `!m?.id` truthiness check. -/
def idStr (m : Model) : String := m.id.getD ""

def promptPrice (m : Model) : Option ℚ := m.pricing.bind Pricing.prompt

def completionPrice (m : Model) : Option ℚ := m.pricing.bind Pricing.completion

/-- `isFreeModel` from `modelManager.js`: prompt and completion pricing must
both parse to exactly `0`; a missing field parses to `NaN` (here `none`) and
is therefore non-free. -/
def isFreeModel (m : Model) : Bool :=
  match promptPrice m, completionPrice m with
  | some p, some c => decide (p = 0) && decide (c = 0)
  | _, _ => false

/-- `isTextOnly` from `modelManager.js`: the output-modality list (defaulting
to `[]` when absent) is non-empty and every entry is `"text"`. -/
def isTextOnly (m : Model) : Bool :=
  let out := m.output_modalities.getD []
  !out.isEmpty && out.all fun x => decide (x = "text")

/-- The `!m?.id` truthiness guard of `rankModels`' filter: the descriptor has
an id and it is not the empty string. -/
def hasId (m : Model) : Bool :=
  match m.id with
  | some s => decide (s ≠ "")
  | none => false

/-- The conjunction of the three per-descriptor checks in `rankModels`'
filter callback (everything except the `seen` deduplication). -/
def keepPred (m : Model) : Bool :=
  hasId m && isFreeModel m && isTextOnly m

/-- The filter callback of `rankModels` including its `seen`-set
deduplication: a descriptor is kept iff it passes `keepPred` and no earlier
kept descriptor had the same id; `seen` accumulates the ids of kept
descriptors exactly as the closure's `Set` does. -/
def filterDedup : List Model → List String → List Model
  | [], _ => []
  | m :: rest, seen =>
    if keepPred m && !seen.contains (idStr m) then
      m :: filterDedup rest (idStr m :: seen)
    else
      filterDedup rest seen

/-- Codepoint-wise lexicographic strict order on character lists; sign model
of `String.prototype.localeCompare` (catalog identifiers are ASCII slugs, on
which the default collation agrees with codepoint order). -/
def strLtB : List Char → List Char → Bool
  | [], [] => false
  | [], _ :: _ => true
  | _ :: _, [] => false
  | a :: as, b :: bs =>
    if a < b then true else if b < a then false else strLtB as bs

/-- Sign of `a.localeCompare(b)` as used by the comparator (only the sign is
observable to the sort). -/
def strCmp (a b : String) : ℤ :=
  if strLtB a.data b.data then -1 else if strLtB b.data a.data then 1 else 0

/-- The comparator passed to `.sort` in `rankModels`.  Levels, as in the
source: roleplay-tagged first, then `created` descending (absent `created` is
`?? 0`), then `context_length` ascending (absent length is `?? Infinity`),
then `localeCompare` on ids.  The `none, none` context case returns `0`
because in the source `Infinity - Infinity` is `NaN`, `NaN !== 0` is `true`,
the comparator returns `NaN`, and ECMAScript `SortCompare` coerces a `NaN`
comparator result to `+0` — so the id tiebreaker is skipped there. -/
def jsCompare (rpIds : List String) (a b : Model) : ℤ :=
  let rpDiff : ℤ :=
    (if rpIds.contains (idStr b) then 1 else 0) -
      (if rpIds.contains (idStr a) then 1 else 0)
  if rpDiff ≠ 0 then rpDiff
  else
    let createdDiff : ℤ := b.created.getD 0 - a.created.getD 0
    if createdDiff ≠ 0 then createdDiff
    else
      match a.context_length, b.context_length with
      | some x, some y => if x - y ≠ 0 then x - y else strCmp (idStr a) (idStr b)
      | some _, none => -1
      | none, some _ => 1
      | none, none => 0

def MAX_MODELS : ℕ := 5

/-- `rankModels` from `modelManager.js`: deduplicating filter, stable sort by
`jsCompare`, truncation to `MAX_MODELS`, projection to ids.  ECMAScript
requires `Array.prototype.sort` to be stable, and on a consistent comparator
the stable result is unique, so the stable insertion sort is a faithful model
of the engine's sort. -/
def rankModels (models : List Model) (rpIds : List String) : List String :=
  (((filterDedup models []).insertionSort fun a b => jsCompare rpIds a b ≤ 0).take
      MAX_MODELS).map idStr

/-! ### Environment and HTTP-client construction (`llm.js` / `modelManager.js`) -/

/-- The relevant `process.env` entries.  `none` means the variable is absent;
numeric overrides are embedded already parsed. -/
structure Env where
  openrouter_api_key : Option String := none
  openrouter_fallback_model : Option String := none
  llm_timeout_ms : Option ℤ := none
deriving DecidableEq

def configErrorMsg : String := "OPENROUTER_API_KEY is not set in the environment."

/-- The data of the axios instance built by `createClient` (`llm.js`). -/
structure Client where
  timeout : ℤ
  authorization : String
deriving DecidableEq

/-- `createClient` from `llm.js`: reads the key lazily and throws the
configuration error when it is absent (or empty — JS `!key` truthiness)
before anything else happens.  The embedded function is pure, so the
synchronous throw becomes an `Except.error` result. -/
def createClient (env : Env) : Except String Client :=
  match env.openrouter_api_key with
  | none => .error configErrorMsg
  | some key =>
    if key = "" then .error configErrorMsg
    else .ok { timeout := env.llm_timeout_ms.getD 30000, authorization := "Bearer " ++ key }

def FETCH_TIMEOUT_MS : ℤ := 10000

/-- The axios request config built by `buildRequestConfig` (`modelManager.js`);
`category` stands for the optional `params` query object. -/
structure RequestConfig where
  category : Option String
  timeout : ℤ
  authorization : String
deriving DecidableEq

/-- `buildRequestConfig` from `modelManager.js`: same lazy key read and same
configuration error as `createClient`, thrown before the request exists. -/
def buildRequestConfig (env : Env) (category : Option String) : Except String RequestConfig :=
  match env.openrouter_api_key with
  | none => .error configErrorMsg
  | some key =>
    if key = "" then .error configErrorMsg
    else .ok { category, timeout := FETCH_TIMEOUT_MS, authorization := "Bearer " ++ key }

/-- `fetchModels` from `modelManager.js`, instrumented: `net` is the network
oracle (the `axios.get` call, already unwrapped to the descriptor list) and
the second component counts how many network requests were issued. -/
def fetchModels (env : Env) (net : Option String → Except String (List Model))
    (category : Option String) : Except String (List Model) × ℕ :=
  match buildRequestConfig env category with
  | .error e => (.error e, 0)
  | .ok _cfg => (net category, 1)

/-! ### Inference gateway and waterfall (`llm.js`) -/

/-- `choices[i].message?.content` of a chat-completion response; `none` is a
missing message or content field. -/
structure Choice where
  content : Option String
deriving DecidableEq

structure ChatResponse where
  choices : List Choice
deriving DecidableEq

/-- ASCII whitespace, the fragment of the `trim` whitespace class exercised
by this code. -/
def isWs (c : Char) : Bool :=
  c == ' ' || c == '\t' || c == '\n' || c == '\r'

def dropWs : List Char → List Char
  | [] => []
  | c :: cs => if isWs c then dropWs cs else c :: cs

/-- `String.prototype.trim`, embedded structurally on the character list so
that it evaluates on concrete inputs. -/
def jsTrim (s : String) : String :=
  String.mk ((dropWs (dropWs s.data).reverse).reverse)

/-- `callModel` from `llm.js`, instrumented: `post` is the network oracle for
the chat-completion endpoint (the message array and resolved parameters are
carried opaquely in its closure, since no claim inspects them) and the second
component counts outbound requests.  Client construction precedes the
request; a missing choice or blank reply text is rejected. -/
def callModel (env : Env) (post : String → Except String ChatResponse)
    (model : String) : Except String String × ℕ :=
  match createClient env with
  | .error e => (.error e, 0)
  | .ok _client =>
    match post model with
    | .error e => (.error e, 1)
    | .ok resp =>
      match resp.choices.head? with
      | none => (.error ("No choices returned by model \"" ++ model ++ "\"."), 1)
      | some choice =>
        let text := jsTrim (choice.content.getD "")
        if text = "" then
          (.error ("Empty content returned by model \"" ++ model ++ "\"."), 1)
        else (.ok text, 1)

def FALLBACK_MODEL_DEFAULT : String := "mistralai/mistral-7b-instruct:free"

/-- The hard fallback identifier resolved by `chat` (`OPENROUTER_FALLBACK_MODEL
?? 'mistralai/mistral-7b-instruct:free'`). -/
def fallbackOf (env : Env) : String :=
  env.openrouter_fallback_model.getD FALLBACK_MODEL_DEFAULT

/-- `[...new Set(list)]`: JS `Set` iterates in insertion order, so spreading a
deduplicated array keeps the first occurrence of each element. -/
def jsSetDedup : List String → List String → List String
  | [], _ => []
  | x :: rest, seen =>
    if seen.contains x then jsSetDedup rest seen
    else x :: jsSetDedup rest (x :: seen)

/-- The aggregated message built when the waterfall loop exhausts all
candidates: each entry of `errors` is an attempted identifier with the reason
recorded for it. -/
def exhaustMsg (errors : List (String × String)) : String :=
  "[LLM] All models exhausted.\n" ++
    String.intercalate "\n" (errors.map fun e => "  " ++ e.1 ++ ": " ++ e.2)

/-- The `for (const model of waterfall)` loop of `chat`: tries each candidate
in order, returns on the first success, accumulates (identifier, reason)
failure records, and throws `exhaustMsg` when the list runs out.  The second
component is the list of candidates actually tried (gateway invocations). -/
def chatGo (env : Env) (post : String → Except String ChatResponse) :
    List String → List (String × String) → Except String (String × String) × List String
  | [], errors => (.error (exhaustMsg errors), [])
  | model :: rest, errors =>
    match (callModel env post model).1 with
    | .ok text => (.ok (text, model), [model])
    | .error reason =>
      let r := chatGo env post rest (errors ++ [(model, reason)])
      (r.1, model :: r.2)

/-- The `try { await getFreeModels() } catch { freeModels = [] }` prologue of
`chat`: a failed model-list load degrades to the empty list. -/
def freeOf : Except String (List String) → List String
  | .ok l => l
  | .error _ => []

/-- The candidate sequence of one waterfall run: ranked list, then the hard
fallback, deduplicated via `new Set`. -/
def waterfallOf (freeModels : List String) (fallbackModel : String) : List String :=
  jsSetDedup (freeModels ++ [fallbackModel]) []

/-- `chat` from `llm.js`: `freeResult` is the outcome of `getFreeModels()`.
Returns the result (reply text and identifier, or the aggregated error) and
the list of candidates tried. -/
def chatRun (env : Env) (post : String → Except String ChatResponse)
    (freeResult : Except String (List String)) :
    Except String (String × String) × List String :=
  chatGo env post (waterfallOf (freeOf freeResult) (fallbackOf env)) []

/-! ### Disk cache (`modelManager.js`) -/

/-- A JSON value as far as the cache validator inspects one: a string, or
anything else. -/
inductive JVal
  | jstr (s : String)
  | jother
deriving DecidableEq

/-- The parse of the cache file: `fetchedAt` is `some` iff the field is a
number, `models` is `some` iff the field is an array.  `readCache` yields
`none` for a missing or unparseable file. -/
structure CacheRec where
  fetchedAt : Option ℤ
  models : Option (List JVal)
deriving DecidableEq

def CACHE_TTL_MS : ℤ := 24 * 60 * 60 * 1000

/-- The entry check of `isCacheValid`: `typeof m === 'string' && m.length > 0`. -/
def isNonEmptyStr : JVal → Bool
  | .jstr s => decide (s ≠ "")
  | .jother => false

/-- `isCacheValid` from `modelManager.js`: structural validation followed by
the strict TTL comparison `Date.now() - cache.fetchedAt < CACHE_TTL_MS`. -/
def isCacheValid (now : ℤ) : Option CacheRec → Bool
  | none => false
  | some c =>
    match c.fetchedAt with
    | none => false
    | some t =>
      match c.models with
      | none => false
      | some ms => !ms.isEmpty && ms.all isNonEmptyStr && decide (now - t < CACHE_TTL_MS)

/-- The string entries of a cache model array (on a validated record this is
the identity on the stored list). -/
def strVals (l : List JVal) : List String :=
  l.filterMap fun v => match v with | .jstr s => some s | .jother => none

/-- The mutable cache state of `modelManager.js`: `_memoryCache` and the
parsed disk record. -/
structure CacheState where
  memory : Option (List String)
  disk : Option CacheRec
deriving DecidableEq

/-- `getFreeModels` from `modelManager.js`, instrumented: returns the result
and whether the refresh (network fetch sequence) was triggered.
`refreshOutcome` is the outcome `refreshModels()` would produce if called. -/
def getFreeModelsRun (now : ℤ) (st : CacheState)
    (refreshOutcome : Except String (List String)) :
    Except String (List String) × Bool :=
  match st.memory with
  | some l => (.ok l, false)
  | none =>
    match st.disk with
    | some c =>
      if isCacheValid now (some c) then (.ok (strVals (c.models.getD [])), false)
      else (refreshOutcome, true)
    | none => (refreshOutcome, true)

/-! ### Refresh (`modelManager.js`) -/

def noModelsMsg : String := "[ModelManager] No suitable free text-only models found."

/-- The cache record written by `writeCache` on a successful refresh. -/
def mkCacheRec (now : ℤ) (models : List String) : CacheRec :=
  { fetchedAt := some now, models := some (models.map JVal.jstr) }

/-- The `.catch(… => [])` wrapper on the roleplay-category fetch: its failure
is tolerated and contributes an empty list. -/
def tolerated : Except String (List Model) → List Model
  | .ok l => l
  | .error _ => []

/-- The body of `refreshModels` after both fetches settle: `rpResult` is the
roleplay-category fetch (failure tolerated), `allResult` the broad fetch
(failure fatal).  On success the ranked list is written to disk and to the
in-memory cache, in that order; on either failure path the state is returned
untouched because the throw happens before `writeCache` and the
`_memoryCache` assignment.  (`writeCache`'s own I/O failure is logged and
non-fatal in the source and is not modelled.) -/
def refreshBody (now : ℤ) (rpResult allResult : Except String (List Model))
    (st : CacheState) : Except String (List String) × CacheState :=
  let roleplayRaw := tolerated rpResult
  match allResult with
  | .error e => (.error e, st)
  | .ok allRaw =>
    let rpIds := roleplayRaw.map idStr
    let merged := roleplayRaw ++ allRaw
    let ranked := rankModels merged rpIds
    if ranked.isEmpty then (.error noModelsMsg, st)
    else (.ok ranked, { memory := some ranked, disk := some (mkCacheRec now ranked) })

/-! ### Single-flight refresh lock (`modelManager.js`)

`refreshModels` runs `if (_refreshInFlight) return _refreshInFlight;` and the
assignment of the new in-flight promise synchronously, with no suspension
point in between, so on the single-threaded event loop each caller's arrival
is one atomic step.  `FlightState.inFlight` is `_refreshInFlight` (promises
are identified by a serial number), `started` counts fetch sequences ever
started, and `refreshSettle` is the `.finally(() => { _refreshInFlight =
null; })` handler, which runs whether the operation fulfilled or rejected. -/

structure FlightState where
  inFlight : Option ℕ
  started : ℕ
deriving DecidableEq

/-- One caller entering `refreshModels`: either joins the in-flight operation
or starts (and registers) a new one.  Returns the promise the caller ends up
awaiting. -/
def refreshEnter (s : FlightState) : FlightState × ℕ :=
  match s.inFlight with
  | some p => (s, p)
  | none => ({ inFlight := some s.started, started := s.started + 1 }, s.started)

/-- The `.finally` handler: clears the marker regardless of outcome. -/
def refreshSettle (s : FlightState) : FlightState :=
  { s with inFlight := none }

/-- `n` callers arriving (each a synchronous `refreshEnter` step) before the
in-flight operation settles; returns the final state and the promise each
caller awaits, in arrival order. -/
def arrivals : ℕ → FlightState → FlightState × List ℕ
  | 0, s => (s, [])
  | n + 1, s =>
    let e := refreshEnter s
    let r := arrivals n e.1
    (r.1, e.2 :: r.2)

/-! ### Spec-side definitions

The following definitions transcribe the specification's wording (not the
code); the claim theorems compare the code-side definitions above against
them. -/

/-- The spec's "lexically smaller identifier". -/
def lexIdLt (a b : String) : Prop := strLtB a.data b.data = true

/-- The context-window sort key stated by the spec: smaller first, an absent
window counting as infinite (the code's `?? Infinity`). -/
def ctxKey (m : Model) : WithTop ℤ :=
  match m.context_length with
  | some c => (c : WithTop ℤ)
  | none => ⊤

/-- The spec's four-level lexicographic "sorts strictly before": category tag,
newer `created`, smaller context window, lexically smaller identifier. -/
def specBefore (rpIds : List String) (a b : Model) : Prop :=
  (rpIds.contains (idStr a) = true ∧ rpIds.contains (idStr b) = false) ∨
  (rpIds.contains (idStr a) = rpIds.contains (idStr b) ∧
    (a.created.getD 0 > b.created.getD 0 ∨
      (a.created.getD 0 = b.created.getD 0 ∧
        (ctxKey a < ctxKey b ∨
          (ctxKey a = ctxKey b ∧ lexIdLt (idStr a) (idStr b))))))

/-- The first two sort levels only (tag, then newer `created`). -/
def specBeforeNoCtx (rpIds : List String) (a b : Model) : Prop :=
  (rpIds.contains (idStr a) = true ∧ rpIds.contains (idStr b) = false) ∨
  (rpIds.contains (idStr a) = rpIds.contains (idStr b) ∧
    a.created.getD 0 > b.created.getD 0)

instance (rpIds : List String) (a b : Model) : Decidable (specBefore rpIds a b) := by
  unfold specBefore lexIdLt
  infer_instance

instance (rpIds : List String) (a b : Model) : Decidable (specBeforeNoCtx rpIds a b) := by
  unfold specBeforeNoCtx
  infer_instance

/-- The spec's reading of cache validity: numeric fetch timestamp younger
than the TTL, and a non-empty array whose entries are all non-empty
strings. -/
def specCacheValid (now : ℤ) (c : CacheRec) : Prop :=
  (∃ t, c.fetchedAt = some t ∧ now - t < CACHE_TTL_MS) ∧
  (∃ ms, c.models = some ms ∧ ms ≠ [] ∧ ∀ v ∈ ms, ∃ s, v = JVal.jstr s ∧ s ≠ "")

/-! ### Concrete inputs used by counterexamples and witnesses -/

def cexA : Model := ⟨some "vendor/a", some 1000, none, some ⟨some 0, some 0⟩, some ["text"]⟩
def cexB : Model := ⟨some "vendor/b", some 1000, none, some ⟨some 0, some 0⟩, some ["text"]⟩
def cexC : Model := ⟨some "vendor/c", some 999, some 4096, some ⟨some 0, some 0⟩, some ["text"]⟩
def wModel : Model := ⟨some "vendor/w", some 1, some 10, some ⟨some 0, some 0⟩, some ["text"]⟩
def wRp : Model := ⟨some "vendor/d", some 5, some 10, some ⟨some 0, some 0⟩, some ["text"]⟩
def wAl : Model := ⟨some "vendor/d", some 9, some 10, some ⟨some 0, some 0⟩, some ["text"]⟩

def envNoKey : Env := ⟨none, none, none⟩
def env₀ : Env := ⟨some "k", some "fb", none⟩

def post₀ : String → Except String ChatResponse := fun _ => .error "net"
def net₀ : Option String → Except String (List Model) := fun _ => .ok []
def postFbOnly : String → Except String ChatResponse :=
  fun m => if m = "fb" then .ok ⟨[⟨some "hi"⟩]⟩ else .error "down"
def postAllFail : String → Except String ChatResponse := fun _ => .error "down"
def postOkA : String → Except String ChatResponse :=
  fun m => if m = "a" then .ok ⟨[⟨some " hi "⟩]⟩ else .error "down"

def recW : CacheRec := ⟨some 500, some [.jstr "m1"]⟩
def recExp : CacheRec := ⟨some (-86399000), some [.jstr "m1"]⟩
def recBad : CacheRec := ⟨some 500, some [.jstr ""]⟩
def stW : CacheState := ⟨some ["old"], some ⟨some 1, some [.jstr "old"]⟩⟩

end Chester

/-! ## Helper lemmas -/

namespace Chester

theorem contains_iff {l : List String} {x : String} : l.contains x = true ↔ x ∈ l :=
  List.elem_iff

theorem contains_eq_false_iff {l : List String} {x : String} :
    l.contains x = false ↔ x ∉ l := by
  constructor
  · intro h hc
    rw [contains_iff.mpr hc] at h
    cases h
  · intro h
    cases hc : l.contains x
    · rfl
    · exact absurd (contains_iff.mp hc) h

/-- A descriptor kept by the deduplicating filter comes from the input list,
passes the per-descriptor checks, and its id was not previously seen. -/
theorem mem_filterDedup {m : Model} :
    ∀ {l : List Model} {seen : List String}, m ∈ filterDedup l seen →
      m ∈ l ∧ keepPred m = true ∧ idStr m ∉ seen
  | [], _, h => by simp [filterDedup] at h
  | m₀ :: rest, seen, h => by
    by_cases hk : keepPred m₀ && !seen.contains (idStr m₀)
    · rw [filterDedup, if_pos hk] at h
      rw [Bool.and_eq_true] at hk
      rcases List.mem_cons.mp h with rfl | h'
      · refine ⟨List.mem_cons_self _ _, hk.1, ?_⟩
        have h2 := hk.2
        rw [Bool.not_eq_true'] at h2
        exact contains_eq_false_iff.mp h2
      · obtain ⟨h1, h2, h3⟩ := mem_filterDedup h'
        exact ⟨List.mem_cons_of_mem _ h1, h2, fun hc => h3 (List.mem_cons_of_mem _ hc)⟩
    · rw [filterDedup, if_neg hk] at h
      obtain ⟨h1, h2, h3⟩ := mem_filterDedup h
      exact ⟨List.mem_cons_of_mem _ h1, h2, h3⟩

/-- The ids of the filtered list are pairwise distinct. -/
theorem nodup_filterDedup_ids :
    ∀ (l : List Model) (seen : List String), ((filterDedup l seen).map idStr).Nodup
  | [], _ => by simp [filterDedup]
  | m₀ :: rest, seen => by
    by_cases hk : keepPred m₀ && !seen.contains (idStr m₀)
    · rw [filterDedup, if_pos hk, List.map_cons, List.nodup_cons]
      refine ⟨?_, nodup_filterDedup_ids rest (idStr m₀ :: seen)⟩
      intro hmem
      obtain ⟨m', hm', hid⟩ := List.mem_map.mp hmem
      exact (mem_filterDedup hm').2.2 (hid ▸ List.mem_cons_self _ _)
    · rw [filterDedup, if_neg hk]
      exact nodup_filterDedup_ids rest seen

/-- If some eligible descriptor with a given id occurs in the leading
(roleplay) part of the concatenated input, the descriptor kept for that id is
from the leading part: first occurrence wins. -/
theorem firstWins_filterDedup {x : String} :
    ∀ (rpl al : List Model) (seen : List String),
      (∃ m' ∈ rpl, keepPred m' = true ∧ idStr m' = x ∧ x ∉ seen) →
      ∀ m ∈ filterDedup (rpl ++ al) seen, idStr m = x → m ∈ rpl
  | [], _, _, h => by
    obtain ⟨m', hm', _⟩ := h
    exact absurd hm' (List.not_mem_nil m')
  | m₀ :: rest, al, seen, h => by
    intro m hm hid
    obtain ⟨m', hm', hkeep', hid', hseen'⟩ := h
    by_cases hk : keepPred m₀ && !seen.contains (idStr m₀)
    · rw [List.cons_append, filterDedup, if_pos hk] at hm
      rcases List.mem_cons.mp hm with rfl | hm2
      · exact List.mem_cons_self _ _
      · have hnotin := (mem_filterDedup hm2).2.2
        have hne : idStr m ≠ idStr m₀ := fun hc => hnotin (hc ▸ List.mem_cons_self _ _)
        rcases List.mem_cons.mp hm' with rfl | hm'2
        · exact absurd (hid.trans hid'.symm) hne
        · refine List.mem_cons_of_mem _
            (firstWins_filterDedup rest al (idStr m₀ :: seen)
              ⟨m', hm'2, hkeep', hid', fun hc => ?_⟩ m hm2 hid)
          rcases List.mem_cons.mp hc with hc1 | hc2
          · exact hne (hid.trans hc1)
          · exact hseen' hc2
    · rw [List.cons_append, filterDedup, if_neg hk] at hm
      rcases List.mem_cons.mp hm' with rfl | hm'2
      · exfalso
        have hcf : seen.contains (idStr m') = false :=
          contains_eq_false_iff.mpr (hid' ▸ hseen')
        rw [hkeep', hcf] at hk
        exact hk rfl
      · exact List.mem_cons_of_mem _
          (firstWins_filterDedup rest al seen ⟨m', hm'2, hkeep', hid', hseen'⟩ m hm hid)

theorem mem_jsSetDedup {x : String} :
    ∀ {l seen : List String}, x ∈ jsSetDedup l seen → x ∈ l
  | [], _, h => by simp [jsSetDedup] at h
  | y :: rest, seen, h => by
    by_cases hc : seen.contains y = true
    · rw [jsSetDedup, if_pos hc] at h
      exact List.mem_cons_of_mem _ (mem_jsSetDedup h)
    · rw [jsSetDedup, if_neg hc] at h
      rcases List.mem_cons.mp h with rfl | h'
      · exact List.mem_cons_self _ _
      · exact List.mem_cons_of_mem _ (mem_jsSetDedup h')

/-- Deduplication is the identity on an already duplicate-free list disjoint
from `seen`. -/
theorem jsSetDedup_eq_self :
    ∀ {l seen : List String}, l.Nodup → (∀ x ∈ l, x ∉ seen) → jsSetDedup l seen = l
  | [], _, _, _ => rfl
  | y :: rest, seen, hnd, hdisj => by
    have hy : seen.contains y = false :=
      contains_eq_false_iff.mpr (hdisj y (List.mem_cons_self _ _))
    rw [jsSetDedup, hy]
    simp only [Bool.false_eq_true, if_false]
    rw [List.nodup_cons] at hnd
    rw [jsSetDedup_eq_self hnd.2]
    intro x hx
    intro hmem
    rcases List.mem_cons.mp hmem with rfl | h2
    · exact hnd.1 hx
    · exact hdisj x (List.mem_cons_of_mem _ hx) h2

/-- Appending one element before deduplicating keeps it iff it is fresh. -/
theorem jsSetDedup_append_singleton (x : String) :
    ∀ (l seen : List String),
      jsSetDedup (l ++ [x]) seen =
        jsSetDedup l seen ++ (if x ∈ seen ∨ x ∈ l then [] else [x])
  | [], seen => by
    by_cases hx : x ∈ seen
    · have hc : seen.contains x = true := contains_iff.mpr hx
      simp [jsSetDedup, hc, hx]
    · have hc : seen.contains x = false := contains_eq_false_iff.mpr hx
      simp [jsSetDedup, hc, hx]
  | y :: l, seen => by
    rw [List.cons_append, jsSetDedup, jsSetDedup]
    by_cases hc : seen.contains y = true
    · rw [if_pos hc, if_pos hc, jsSetDedup_append_singleton x l seen]
      have hy : y ∈ seen := contains_iff.mp hc
      by_cases hx : x ∈ seen ∨ x ∈ l
      · rw [if_pos hx, if_pos ?_]
        rcases hx with h1 | h2
        · exact Or.inl h1
        · exact Or.inr (List.mem_cons_of_mem _ h2)
      · rw [if_neg hx, if_neg ?_]
        intro hcon
        rcases hcon with h1 | h2
        · exact hx (Or.inl h1)
        · rcases List.mem_cons.mp h2 with rfl | h3
          · exact hx (Or.inl hy)
          · exact hx (Or.inr h3)
    · rw [if_neg hc, if_neg hc, jsSetDedup_append_singleton x l (y :: seen), List.cons_append]
      by_cases hx : x ∈ y :: seen ∨ x ∈ l
      · rw [if_pos hx, if_pos ?_]
        rcases hx with h1 | h2
        · rcases List.mem_cons.mp h1 with rfl | h3
          · exact Or.inr (List.mem_cons_self _ _)
          · exact Or.inl h3
        · exact Or.inr (List.mem_cons_of_mem _ h2)
      · rw [if_neg hx, if_neg ?_]
        intro hcon
        apply hx
        rcases hcon with h1 | h2
        · exact Or.inl (List.mem_cons_of_mem _ h1)
        · rcases List.mem_cons.mp h2 with rfl | h3
          · exact Or.inl (List.mem_cons_self _ _)
          · exact Or.inr h3

/-- Running the waterfall loop over candidates that all fail accumulates one
(identifier, reason) record per candidate and ends in the aggregated error. -/
theorem chatGo_all_fail (env : Env) (post : String → Except String ChatResponse)
    (r : String → String) :
    ∀ (l : List String) (errs : List (String × String)),
      (∀ m ∈ l, (callModel env post m).1 = .error (r m)) →
      chatGo env post l errs =
        (.error (exhaustMsg (errs ++ l.map fun m => (m, r m))), l)
  | [], errs, _ => by simp [chatGo]
  | m₀ :: rest, errs, h => by
    rw [chatGo, h m₀ (List.mem_cons_self _ _)]
    dsimp only
    rw [chatGo_all_fail env post r rest (errs ++ [(m₀, r m₀)])
      (fun m hm => h m (List.mem_cons_of_mem _ hm))]
    simp

/-- The waterfall loop walks past any failing candidates and returns at the
first succeeding one, having tried exactly the failing candidates plus it. -/
theorem chatGo_after_failures (env : Env) (post : String → Except String ChatResponse)
    (m₀ : String) (t : String) (h : (callModel env post m₀).1 = .ok t)
    (l₂ : List String) :
    ∀ (l₁ : List String) (errs : List (String × String)),
      (∀ m ∈ l₁, ∃ rr, (callModel env post m).1 = .error rr) →
      chatGo env post (l₁ ++ m₀ :: l₂) errs = (.ok (t, m₀), l₁ ++ [m₀])
  | [], errs, _ => by rw [List.nil_append, chatGo, h]; rfl
  | m₁ :: l₁, errs, h₁ => by
    obtain ⟨rr, hrr⟩ := h₁ m₁ (List.mem_cons_self _ _)
    rw [List.cons_append, chatGo, hrr]
    dsimp only
    rw [chatGo_after_failures env post m₀ t h l₂ l₁ (errs ++ [(m₁, rr)])
      (fun m hm => h₁ m (List.mem_cons_of_mem _ hm))]
    rfl

theorem strLtB_irrefl : ∀ (l : List Char), strLtB l l = false
  | [] => rfl
  | c :: cs => by
    rw [strLtB, if_neg (lt_irrefl c), if_neg (lt_irrefl c)]
    exact strLtB_irrefl cs

theorem strCmp_lt_iff {a b : String} : strCmp a b < 0 ↔ lexIdLt a b := by
  unfold strCmp lexIdLt
  cases h₁ : strLtB a.data b.data
  · cases h₂ : strLtB b.data a.data <;> simp
  · simp

theorem hasId_eq_true_iff {m : Model} :
    hasId m = true ↔ ∃ s, m.id = some s ∧ s ≠ "" := by
  unfold hasId
  rcases m.id with _ | s <;> simp

theorem isFreeModel_eq_true_iff {m : Model} :
    isFreeModel m = true ↔ promptPrice m = some 0 ∧ completionPrice m = some 0 := by
  unfold isFreeModel
  rcases promptPrice m with _ | p <;> rcases completionPrice m with _ | c <;> simp

theorem isTextOnly_eq_true_iff {m : Model} :
    isTextOnly m = true ↔
      m.output_modalities.getD [] ≠ [] ∧ ∀ x ∈ m.output_modalities.getD [], x = "text" := by
  unfold isTextOnly
  simp [List.isEmpty_iff, List.all_eq_true]

/-- An id in the ranked output is the id of some kept descriptor. -/
theorem mem_rankModels {models : List Model} {rpIds : List String} {i : String}
    (h : i ∈ rankModels models rpIds) :
    ∃ m ∈ filterDedup models [], idStr m = i := by
  unfold rankModels at h
  obtain ⟨m, hm, hid⟩ := List.mem_map.mp h
  exact ⟨m, (List.perm_insertionSort _ _).subset (List.mem_of_mem_take hm), hid⟩

/-- The code's `isCacheValid` agrees with the spec's wording. -/
theorem isCacheValid_iff {now : ℤ} {c : CacheRec} :
    isCacheValid now (some c) = true ↔ specCacheValid now c := by
  unfold isCacheValid specCacheValid
  rcases c with ⟨ft, ms⟩
  rcases ft with _ | t <;> rcases ms with _ | l <;> simp
  constructor
  · rintro ⟨⟨hne, hall⟩, httl⟩
    refine ⟨httl, ?_, ?_⟩
    · simpa using hne
    · intro v hv
      have hvs := hall v hv
      cases v with
      | jstr s => exact ⟨s, rfl, by simpa [isNonEmptyStr] using hvs⟩
      | jother => simp [isNonEmptyStr] at hvs
  · rintro ⟨httl, hne, hall⟩
    refine ⟨⟨by simpa using hne, ?_⟩, httl⟩
    intro v hv
    obtain ⟨s, rfl, hs⟩ := hall v hv
    simpa [isNonEmptyStr] using hs

theorem exhaustMsg_head (errs : List (String × String)) :
    (exhaustMsg errs).data.head? = some '[' := by
  unfold exhaustMsg
  generalize String.intercalate "\n" (errs.map fun e => "  " ++ e.1 ++ ": " ++ e.2) = s
  obtain ⟨l⟩ := s
  rfl

/-- The configuration message is not the ranking-empty message and is not an
exhaustion message (those open with a different character). -/
theorem configErrorMsg_distinguishable :
    configErrorMsg ≠ noModelsMsg ∧ ∀ errs, exhaustMsg errs ≠ configErrorMsg := by
  constructor
  · decide
  · intro errs h
    have h1 := exhaustMsg_head errs
    rw [h] at h1
    exact absurd h1 (by decide)

/-- Callers arriving while an operation is in flight leave the state
unchanged and all receive that operation. -/
theorem arrivals_of_inFlight {p : ℕ} :
    ∀ (n : ℕ) (s : FlightState), s.inFlight = some p →
      arrivals n s = (s, List.replicate n p)
  | 0, _, _ => rfl
  | n + 1, s, h => by
    unfold arrivals refreshEnter
    rw [h]
    dsimp only
    rw [arrivals_of_inFlight n s h]
    rw [List.replicate_succ]

end Chester

/-! ## Claim theorems -/

namespace Chester

/-- C1 (amended): for any two descriptors, the comparator realises the
four-level lexicographic order — category-tagged first, newer `created`
first, smaller context window first, lexically smaller id first — whenever at
least one of the pair has a context window; when both context windows are
absent, only the first two levels apply and an otherwise-tied pair is
reported equal (the id tiebreaker is skipped, because the comparator's
`Infinity - Infinity` is `NaN`, which the sort treats as `0`). -/
theorem rank_order_levels (rp : List String) (a b : Model) :
    ((a.context_length.isSome ∨ b.context_length.isSome) →
      (jsCompare rp a b < 0 ↔ specBefore rp a b)) ∧
    (a.context_length = none → b.context_length = none →
      (jsCompare rp a b < 0 ↔ specBeforeNoCtx rp a b)) := by
  unfold jsCompare specBefore specBeforeNoCtx
  cases hta : rp.contains (idStr a) <;> cases htb : rp.contains (idStr b) <;>
    simp only [hta, htb, Bool.false_eq_true, Bool.true_eq_false, false_and, and_false,
      true_and, and_true, false_or, or_false] <;>
    norm_num
  all_goals
    refine ⟨fun hctx => ?_, fun ha hb => ?_⟩
    · by_cases hcd : b.created.getD 0 - a.created.getD 0 = 0
      · rw [if_pos hcd]
        rcases hax : a.context_length with _ | x <;> rcases hbx : b.context_length with _ | y <;>
          simp only [hax, hbx, ctxKey]
        · simp [hax, hbx] at hctx
        · constructor
          · intro h
            exact absurd h (by omega)
          · rintro (h | ⟨h1, h2 | ⟨h3, -⟩⟩)
            · omega
            · exact absurd h2 not_top_lt
            · exact absurd h3 (by simp)
        · constructor
          · intro h
            exact Or.inr ⟨by omega, Or.inl (WithTop.coe_lt_top x)⟩
          · intro h
            omega
        · by_cases hxy : x - y = 0
          · rw [if_pos hxy, strCmp_lt_iff]
            have hxy2 : x = y := by omega
            subst hxy2
            constructor
            · intro h
              exact Or.inr ⟨by omega, Or.inr ⟨rfl, h⟩⟩
            · rintro (h | ⟨h1, h2 | ⟨-, h3⟩⟩)
              · exact absurd h (by omega)
              · exact absurd h2 (lt_irrefl _)
              · exact h3
          · rw [if_neg hxy]
            constructor
            · intro h
              refine Or.inr ⟨by omega, Or.inl ?_⟩
              exact_mod_cast (by omega : x < y)
            · rintro (h | ⟨h1, h2 | ⟨h3, -⟩⟩)
              · omega
              · have hx : x < y := by exact_mod_cast h2
                omega
              · have hx : x = y := by exact_mod_cast h3
                omega
      · rw [if_neg hcd]
        constructor
        · intro h
          exact Or.inl (by omega)
        · rintro (h | ⟨h1, -⟩) <;> omega
    · simp only [ha, hb]
      by_cases hcd : b.created.getD 0 - a.created.getD 0 = 0
      · rw [if_pos hcd]
        omega
      · rw [if_neg hcd]
        omega

/-- C1 counterexample: two filter-surviving descriptors tied on tag and
timestamp with both context windows absent; the claimed four-level order puts
`vendor/a` strictly first, but the comparator reports the pair equal and the
ranked list keeps the encounter order, `vendor/b` first. -/
theorem rank_fourth_level_counterexample :
    keepPred cexA = true ∧ keepPred cexB = true ∧
    specBefore [] cexA cexB ∧ ¬ jsCompare [] cexA cexB < 0 ∧
    rankModels [cexB, cexA] [] = ["vendor/b", "vendor/a"] := by decide

/-- Witness for C1 (amended): both branches applied at concrete descriptors. -/
theorem rank_order_levels_witness :
    (jsCompare [] cexC cexA < 0 ↔ specBefore [] cexC cexA) ∧
    (jsCompare [] cexA cexB < 0 ↔ specBeforeNoCtx [] cexA cexB) :=
  ⟨(rank_order_levels [] cexC cexA).1 (Or.inl (by decide)),
   (rank_order_levels [] cexA cexB).2 rfl rfl⟩

/-- C2: an identifier appears in the Ranked Model List only if its descriptor
has that (non-empty) identifier, both unit prices parse to exactly zero
(hence pricing fields are present — absent pricing is never free), and its
output-modality set is non-empty and contains only `"text"`. -/
theorem ranked_only_free_text_models (models : List Model) (rpIds : List String)
    (i : String) (h : i ∈ rankModels models rpIds) :
    ∃ m ∈ models, m.id = some i ∧ i ≠ "" ∧
      promptPrice m = some 0 ∧ completionPrice m = some 0 ∧
      m.output_modalities.getD [] ≠ [] ∧ ∀ x ∈ m.output_modalities.getD [], x = "text" := by
  obtain ⟨m, hmf, hid⟩ := mem_rankModels h
  obtain ⟨hml, hkeep, -⟩ := mem_filterDedup hmf
  unfold keepPred at hkeep
  rw [Bool.and_eq_true, Bool.and_eq_true] at hkeep
  obtain ⟨⟨h1, h2⟩, h3⟩ := hkeep
  obtain ⟨s, hs, hsne⟩ := hasId_eq_true_iff.mp h1
  obtain ⟨hp, hc⟩ := isFreeModel_eq_true_iff.mp h2
  obtain ⟨hne, hall⟩ := isTextOnly_eq_true_iff.mp h3
  have hsi : s = i := by
    rw [← hid]
    unfold idStr
    rw [hs]
    rfl
  subst hsi
  exact ⟨m, hml, hs, hsne, hp, hc, hne, hall⟩

/-- Witness for C2 at a concrete one-descriptor catalog. -/
theorem ranked_only_free_text_models_witness :
    ∃ m ∈ [wModel], m.id = some "vendor/w" ∧ "vendor/w" ≠ "" ∧
      promptPrice m = some 0 ∧ completionPrice m = some 0 ∧
      m.output_modalities.getD [] ≠ [] ∧ ∀ x ∈ m.output_modalities.getD [], x = "text" :=
  ranked_only_free_text_models [wModel] [] "vendor/w" (by decide)

/-- C3: with the credential absent, client construction and request-config
construction fail immediately with the fixed configuration error; the
gateway call and the catalog fetch return that error having made zero
network requests, for any network oracle; and the configuration message is
distinct from the ranking-empty message and from every exhaustion message. -/
theorem missing_key_fails_before_network (env : Env)
    (h : env.openrouter_api_key = none) :
    createClient env = .error configErrorMsg ∧
    (∀ category, buildRequestConfig env category = .error configErrorMsg) ∧
    (∀ post m, callModel env post m = (.error configErrorMsg, 0)) ∧
    (∀ net category, fetchModels env net category = (.error configErrorMsg, 0)) ∧
    configErrorMsg ≠ noModelsMsg ∧
    (∀ errs, exhaustMsg errs ≠ configErrorMsg) := by
  have hcc : createClient env = .error configErrorMsg := by
    unfold createClient
    rw [h]
  have hbr : ∀ category, buildRequestConfig env category = .error configErrorMsg := by
    intro c
    unfold buildRequestConfig
    rw [h]
  refine ⟨hcc, hbr, ?_, ?_, configErrorMsg_distinguishable.1,
    configErrorMsg_distinguishable.2⟩
  · intro post m
    unfold callModel
    rw [hcc]
  · intro net category
    unfold fetchModels
    rw [hbr]

/-- Witness for C3 at a concrete keyless environment. -/
theorem missing_key_fails_before_network_witness :
    createClient envNoKey = .error configErrorMsg ∧
    buildRequestConfig envNoKey none = .error configErrorMsg ∧
    callModel envNoKey post₀ "m" = (.error configErrorMsg, 0) ∧
    fetchModels envNoKey net₀ none = (.error configErrorMsg, 0) ∧
    configErrorMsg ≠ noModelsMsg ∧
    exhaustMsg [("m", "why")] ≠ configErrorMsg := by
  obtain ⟨h1, h2, h3, h4, h5, h6⟩ := missing_key_fails_before_network envNoKey rfl
  exact ⟨h1, h2 none, h3 post₀ "m", h4 net₀ none, h5, h6 [("m", "why")]⟩

/-- C4: the candidate sequence of a waterfall run is the ranked list followed
by the hard fallback, deduplicated with first occurrence kept (a fallback
already in the ranked list is not appended, hence never tried twice); when
the ranked list cannot be obtained the run still tries exactly the fallback;
and when every ranked candidate fails while the fallback succeeds, the run
returns the fallback's reply text with the fallback identifier. -/
theorem waterfall_candidate_sequence (env : Env)
    (post : String → Except String ChatResponse) :
    (∀ ranked : List String, ranked.Nodup → fallbackOf env ∈ ranked →
      waterfallOf ranked (fallbackOf env) = ranked) ∧
    (∀ ranked : List String, ranked.Nodup → fallbackOf env ∉ ranked →
      waterfallOf ranked (fallbackOf env) = ranked ++ [fallbackOf env]) ∧
    (∀ e : String, (chatRun env post (.error e)).2 = [fallbackOf env]) ∧
    (∀ (ranked : List String) (r : String → String) (t : String),
      (∀ m ∈ ranked, (callModel env post m).1 = .error (r m)) →
      (callModel env post (fallbackOf env)).1 = .ok t →
      (chatRun env post (.ok ranked)).1 = .ok (t, fallbackOf env)) := by
  refine ⟨?_, ?_, ?_, ?_⟩
  · intro ranked hnd hmem
    unfold waterfallOf
    rw [jsSetDedup_append_singleton, if_pos (Or.inr hmem), List.append_nil]
    exact jsSetDedup_eq_self hnd fun x _ => List.not_mem_nil x
  · intro ranked hnd hmem
    unfold waterfallOf
    rw [jsSetDedup_append_singleton, if_neg ?_,
      jsSetDedup_eq_self hnd fun x _ => List.not_mem_nil x]
    rintro (h1 | h2)
    · exact List.not_mem_nil _ h1
    · exact hmem h2
  · intro e
    show (chatGo env post [fallbackOf env] []).2 = [fallbackOf env]
    rcases hcm : (callModel env post (fallbackOf env)).1 with e' | t
    · rw [chatGo, hcm]
      rfl
    · rw [chatGo, hcm]
  · intro ranked r t hfail hok
    have hnotin : fallbackOf env ∉ ranked := by
      intro hc
      rw [hfail _ hc] at hok
      cases hok
    have hwf : waterfallOf ranked (fallbackOf env) =
        jsSetDedup ranked [] ++ [fallbackOf env] := by
      unfold waterfallOf
      rw [jsSetDedup_append_singleton, if_neg ?_]
      rintro (h1 | h2)
      · exact List.not_mem_nil _ h1
      · exact hnotin h2
    show (chatGo env post (waterfallOf ranked (fallbackOf env)) []).1 = _
    rw [hwf,
      chatGo_after_failures env post (fallbackOf env) t hok [] (jsSetDedup ranked []) []
        fun m hm => ⟨r m, hfail m (mem_jsSetDedup hm)⟩]

/-- Witness for C4: all four branches at concrete inputs (fallback `"fb"`). -/
theorem waterfall_candidate_sequence_witness :
    waterfallOf ["a", "fb"] (fallbackOf env₀) = ["a", "fb"] ∧
    waterfallOf ["a"] (fallbackOf env₀) = ["a"] ++ [fallbackOf env₀] ∧
    (chatRun env₀ postFbOnly (.error "cache down")).2 = [fallbackOf env₀] ∧
    (chatRun env₀ postFbOnly (.ok ["a"])).1 = .ok ("hi", fallbackOf env₀) := by
  obtain ⟨h1, h2, h3, h4⟩ := waterfall_candidate_sequence env₀ postFbOnly
  refine ⟨h1 ["a", "fb"] (by decide) (by decide), h2 ["a"] (by decide) (by decide),
    h3 "cache down", h4 ["a"] (fun _ => "down") "hi" ?_ rfl⟩
  intro m hm
  rcases List.mem_singleton.mp hm with rfl
  rfl

/-- C5: when every candidate fails, the run raises the single aggregated
error whose message is built from one `"  identifier: reason"` line per
attempted candidate, and the candidates attempted are exactly the waterfall
sequence. -/
theorem waterfall_exhaustion_enumerates (env : Env)
    (post : String → Except String ChatResponse)
    (freeResult : Except String (List String)) (r : String → String)
    (h : ∀ m, (callModel env post m).1 = .error (r m)) :
    chatRun env post freeResult =
      (.error (exhaustMsg ((waterfallOf (freeOf freeResult) (fallbackOf env)).map
          fun m => (m, r m))),
        waterfallOf (freeOf freeResult) (fallbackOf env)) := by
  unfold chatRun
  rw [chatGo_all_fail env post r _ [] fun m _ => h m]
  rw [List.nil_append]

/-- Witness for C5 at a concrete always-failing gateway. -/
theorem waterfall_exhaustion_enumerates_witness :
    chatRun env₀ postAllFail (.ok ["a"]) =
      (.error (exhaustMsg ((waterfallOf (freeOf (.ok ["a"])) (fallbackOf env₀)).map
          fun m => (m, "down"))),
        waterfallOf (freeOf (.ok ["a"])) (fallbackOf env₀)) :=
  waterfall_exhaustion_enumerates env₀ postAllFail (.ok ["a"]) (fun _ => "down")
    fun _ => rfl

/-- C6: if the first waterfall candidate succeeds, the run returns its
(trimmed) text and identifier immediately and the attempt list is that single
candidate — the gateway is invoked exactly once. -/
theorem waterfall_first_success_short_circuits (env : Env)
    (post : String → Except String ChatResponse)
    (freeResult : Except String (List String)) (m₀ : String) (rest : List String)
    (t : String)
    (hwf : waterfallOf (freeOf freeResult) (fallbackOf env) = m₀ :: rest)
    (hok : (callModel env post m₀).1 = .ok t) :
    chatRun env post freeResult = (.ok (t, m₀), [m₀]) := by
  unfold chatRun
  rw [hwf, chatGo, hok]

/-- Witness for C6: first candidate `"a"` succeeds, fallback untouched. -/
theorem waterfall_first_success_short_circuits_witness :
    chatRun env₀ postOkA (.ok ["a"]) = (.ok ("hi", "a"), ["a"]) :=
  waterfall_first_success_short_circuits env₀ postOkA (.ok ["a"]) "a" ["fb"] "hi" rfl rfl

/-- C7: with a cold in-memory cache, the read path answers from the disk
record without triggering the refresh exactly when the record satisfies the
spec's validity reading (numeric timestamp; non-empty array of non-empty
strings; age strictly below the 24-hour TTL); an expired record or one
containing a non-string or empty entry always routes to the refresh. -/
theorem cache_read_path_validity (now : ℤ) (rec : CacheRec)
    (refreshOutcome : Except String (List String)) :
    ((getFreeModelsRun now ⟨none, some rec⟩ refreshOutcome).2 = false ↔
      specCacheValid now rec) ∧
    ((getFreeModelsRun now ⟨none, some rec⟩ refreshOutcome).2 = false →
      (getFreeModelsRun now ⟨none, some rec⟩ refreshOutcome).1 =
        .ok (strVals (rec.models.getD []))) ∧
    (∀ t, rec.fetchedAt = some t → CACHE_TTL_MS ≤ now - t →
      (getFreeModelsRun now ⟨none, some rec⟩ refreshOutcome).2 = true) ∧
    (∀ ms, rec.models = some ms → (∃ v ∈ ms, isNonEmptyStr v = false) →
      (getFreeModelsRun now ⟨none, some rec⟩ refreshOutcome).2 = true) ∧
    ((getFreeModelsRun now ⟨none, some rec⟩ refreshOutcome).2 = true →
      (getFreeModelsRun now ⟨none, some rec⟩ refreshOutcome).1 = refreshOutcome) := by
  have hrun : getFreeModelsRun now ⟨none, some rec⟩ refreshOutcome =
      if isCacheValid now (some rec) = true then
        (.ok (strVals (rec.models.getD [])), false)
      else (refreshOutcome, true) := by
    unfold getFreeModelsRun
    dsimp only
  by_cases hv : isCacheValid now (some rec) = true
  · rw [hrun, if_pos hv]
    have hspec := isCacheValid_iff.mp hv
    refine ⟨⟨fun _ => hspec, fun _ => rfl⟩, fun _ => rfl, ?_, ?_, ?_⟩
    · intro t ht httl
      obtain ⟨⟨t2, ht2, hlt⟩, -⟩ := hspec
      rw [ht] at ht2
      have : t = t2 := Option.some.inj ht2
      omega
    · rintro ms hms ⟨v, hvm, hbad⟩
      obtain ⟨-, ms2, hms2, -, hall⟩ := hspec
      rw [hms] at hms2
      obtain rfl : ms = ms2 := Option.some.inj hms2
      obtain ⟨s, rfl, hs⟩ := hall v hvm
      unfold isNonEmptyStr at hbad
      simp [hs] at hbad
    · intro hc
      exact absurd hc (by simp)
  · rw [hrun, if_neg hv]
    refine ⟨⟨?_, ?_⟩, ?_, fun _ _ _ => rfl, fun _ _ _ => rfl, fun _ => rfl⟩
    · intro hc
      exact absurd hc (by simp)
    · intro hspec
      exact absurd (isCacheValid_iff.mpr hspec) hv
    · intro hc
      exact absurd hc (by simp)

/-- Witness for C7: a fresh valid record answers without refresh; an expired
record and a record with an empty-string entry both trigger the refresh. -/
theorem cache_read_path_validity_witness :
    ((getFreeModelsRun 1000 ⟨none, some recW⟩ (.ok ["x"])).2 = false ↔
      specCacheValid 1000 recW) ∧
    (getFreeModelsRun 1000 ⟨none, some recW⟩ (.ok ["x"])).1 =
      .ok (strVals (recW.models.getD [])) ∧
    (getFreeModelsRun 1000 ⟨none, some recExp⟩ (.ok ["x"])).2 = true ∧
    (getFreeModelsRun 1000 ⟨none, some recBad⟩ (.ok ["x"])).2 = true :=
  ⟨(cache_read_path_validity 1000 recW (.ok ["x"])).1,
   (cache_read_path_validity 1000 recW (.ok ["x"])).2.1 rfl,
   (cache_read_path_validity 1000 recExp (.ok ["x"])).2.2.1 (-86399000) rfl (by decide),
   (cache_read_path_validity 1000 recBad (.ok ["x"])).2.2.2.1 [.jstr ""] rfl
     ⟨.jstr "", by decide, by decide⟩⟩

/-- C8: the ranking pass of a refresh (roleplay list leading the merged
array) yields pairwise-distinct identifiers, at most five of them, and on a
duplicated identifier the kept descriptor is the first eligible occurrence,
which lies in the roleplay (category-tagged) list. -/
theorem ranked_list_nodup_and_capped (roleplayRaw allRaw : List Model) :
    (rankModels (roleplayRaw ++ allRaw) (roleplayRaw.map idStr)).Nodup ∧
    (rankModels (roleplayRaw ++ allRaw) (roleplayRaw.map idStr)).length ≤ 5 ∧
    ∀ m ∈ filterDedup (roleplayRaw ++ allRaw) [],
      (∃ m2 ∈ roleplayRaw, keepPred m2 = true ∧ idStr m2 = idStr m) →
      m ∈ roleplayRaw := by
  refine ⟨?_, ?_, ?_⟩
  · unfold rankModels
    rw [List.map_take]
    refine List.Nodup.sublist (List.take_sublist _ _) ?_
    exact ((List.perm_insertionSort _ _).map idStr).symm.nodup
      (nodup_filterDedup_ids _ _)
  · unfold rankModels
    rw [List.length_map]
    exact List.length_take_le _ _
  · rintro m hm ⟨m2, hm2, hk2, hid2⟩
    exact firstWins_filterDedup _ _ _ ⟨m2, hm2, hk2, hid2, List.not_mem_nil _⟩ m hm rfl

/-- Witness for C8: a catalog whose roleplay and broad lists share one id. -/
theorem ranked_list_nodup_and_capped_witness :
    (rankModels ([wRp] ++ [wAl]) ([wRp].map idStr)).Nodup ∧
    (rankModels ([wRp] ++ [wAl]) ([wRp].map idStr)).length ≤ 5 ∧
    wRp ∈ [wRp] := by
  obtain ⟨h1, h2, h3⟩ := ranked_list_nodup_and_capped [wRp] [wAl]
  exact ⟨h1, h2, h3 wRp (by decide) ⟨wRp, by decide, by decide, rfl⟩⟩

/-- C9: with no refresh in flight, a burst of `n + 1` callers arriving before
the operation settles starts exactly one fetch sequence; every caller is
handed the same pending operation (hence an identical result), and settling
clears the in-flight marker — `refreshSettle` by construction ignores the
outcome. -/
theorem single_flight_refresh (n : ℕ) (s : FlightState) (h : s.inFlight = none) :
    (arrivals (n + 1) s).1.started = s.started + 1 ∧
    (arrivals (n + 1) s).2 = List.replicate (n + 1) s.started ∧
    (arrivals (n + 1) s).1.inFlight = some s.started ∧
    (refreshSettle (arrivals (n + 1) s).1).inFlight = none := by
  have h1 : refreshEnter s =
      ({ inFlight := some s.started, started := s.started + 1 }, s.started) := by
    unfold refreshEnter
    rw [h]
  unfold arrivals
  rw [h1]
  dsimp only
  rw [arrivals_of_inFlight n _ rfl, List.replicate_succ]
  exact ⟨rfl, rfl, rfl, rfl⟩

/-- Witness for C9: three concurrent cold-cache callers. -/
theorem single_flight_refresh_witness :
    (arrivals 3 ⟨none, 0⟩).1.started = 0 + 1 ∧
    (arrivals 3 ⟨none, 0⟩).2 = List.replicate 3 0 ∧
    (arrivals 3 ⟨none, 0⟩).1.inFlight = some 0 ∧
    (refreshSettle (arrivals 3 ⟨none, 0⟩).1).inFlight = none :=
  single_flight_refresh 2 ⟨none, 0⟩ rfl

/-- C10: a refresh attempt that fails — broad-fetch error, or no descriptor
surviving filtering — throws before `writeCache` and before the in-memory
assignment, so both caches are returned in exactly their pre-refresh state. -/
theorem failed_refresh_preserves_caches (now : ℤ)
    (rpResult : Except String (List Model)) (st : CacheState) :
    (∀ e, refreshBody now rpResult (.error e) st = (.error e, st)) ∧
    (∀ allRaw : List Model,
      rankModels (tolerated rpResult ++ allRaw) ((tolerated rpResult).map idStr) = [] →
      refreshBody now rpResult (.ok allRaw) st = (.error noModelsMsg, st)) := by
  constructor
  · intro e
    rfl
  · intro allRaw hrank
    unfold refreshBody
    dsimp only
    rw [hrank]
    rfl

/-- Witness for C10: both failure paths over a populated pre-refresh state. -/
theorem failed_refresh_preserves_caches_witness :
    refreshBody 99 (.ok []) (.error "net down") stW = (.error "net down", stW) ∧
    refreshBody 99 (.ok []) (.ok []) stW = (.error noModelsMsg, stW) := by
  obtain ⟨h1, h2⟩ := failed_refresh_preserves_caches 99 (.ok []) stW
  exact ⟨h1 "net down", h2 [] (by decide)⟩

end Chester
